import Mathlib

/-
  Verification of the mediabox container engine (Matroska/EBML demuxer and
  muxer, H.264 NAL reframer, growable buffered reader).

  The definitions below are a shallow embedding of the Rust sources:
    * src/mediabox/src/format/mkv/ebml.rs   (EBML codec)
    * src/mediabox/src/format/mkv/demux.rs  (pull demuxer, probe)
    * src/mediabox/src/format/mkv/mux.rs    (muxer)
    * src/mediabox/src/codec/nal.rs         (NAL bitstream reframer)
    * src/mediabox/src/buffer.rs            (GrowableBufferedReader)

  Machine integers are modelled as Nat / Int with explicit wrap where the
  source can overflow; Rust panics (todo!, unwrap, slice misuse, integer
  ilog2 on 0) are modelled as Option.none; byte slices are List Nat whose
  elements are below 256 wherever a theorem feeds arbitrary input.
-/

namespace Mediabox

/-! ## Byte-level helpers -/

/-- The big-endian bytes of the low `n` bytes of `x`; `beBytes 8 x` models
`u64::to_be_bytes` for `x < 2^64`. -/
def beBytes : Nat → Nat → List Nat
  | 0, _ => []
  | n + 1, x => (x / 2 ^ (8 * n)) % 256 :: beBytes n x

/-- The accumulation loop `value <<= 8; value |= byte` that every integer
reader of ebml.rs runs over its input bytes. -/
def beFold (acc : Nat) (bs : List Nat) : Nat :=
  bs.foldl (fun a b => (a <<< 8) ||| b) acc

/-- Fuel-driven base-2 logarithm; the fuel only bounds the recursion and
`log2n` supplies enough of it, so `log2n` agrees with `Nat.log2` everywhere
(theorem `log2n_eq`) while staying kernel-computable. -/
def log2f : Nat → Nat → Nat
  | 0, _ => 0
  | fuel + 1, n => if n ≥ 2 then log2f fuel (n / 2) + 1 else 0

/-- `u64::ilog2` / `Nat.log2`, kernel-computable. -/
def log2n (n : Nat) : Nat := log2f n n

/-- `u8::leading_zeros` for a byte value (callers keep `x < 256`). -/
def clz8 (x : Nat) : Nat := if x = 0 then 8 else 7 - log2n x


/-! ## EBML codec (src/mediabox/src/format/mkv/ebml.rs) -/

/-- `EbmlLength` from ebml.rs. -/
inductive EbmlLength where
  | known (n : Nat)
  | unknown (w : Nat)
  deriving Repr, DecidableEq

/-- `ebml_vint` (ebml.rs lines 333-358): decode a VINT with the marker bit
stripped; returns the value and the unconsumed input.  `none` models both the
`Incomplete` results and the `todo!()` panic hit when the first byte is 0. -/
def ebml_vint (input : List Nat) : Option (Nat × List Nat) :=
  match input with
  | [] => none
  | byte :: _ =>
    let extra := clz8 byte
    let len := 1 + extra
    if extra > 7 then none
    else if input.length < len then none
    else
      let v0 := byte &&& ((1 <<< (8 - len)) - 1)
      some (beFold v0 ((input.drop 1).take extra), input.drop len)

/-- `ebml_len` (ebml.rs lines 360-391): like `ebml_vint` but classifying the
value as known or unknown size.  The unknown test in the source is
`value == 1 << (7 * len)`. -/
def ebml_len (input : List Nat) : Option (EbmlLength × List Nat) :=
  match input with
  | [] => none
  | byte :: _ =>
    let extra := clz8 byte
    let len := 1 + extra
    if extra > 7 then none
    else if input.length < len then none
    else
      let v0 := byte &&& ((1 <<< (8 - len)) - 1)
      let value := beFold v0 ((input.drop 1).take extra)
      let length := if value = 1 <<< (7 * len) then EbmlLength.unknown len
        else EbmlLength.known value
      some (length, input.drop len)

/-- `ebml_vid` (ebml.rs lines 393-418): decode an id VINT with the marker bit
retained. -/
def ebml_vid (input : List Nat) : Option (Nat × List Nat) :=
  match input with
  | [] => none
  | byte :: _ =>
    let extra := clz8 byte
    let len := 1 + extra
    if extra > 7 then none
    else if input.length < len then none
    else
      some (beFold byte ((input.drop 1).take extra), input.drop len)

/-- `vint_bytes_required` (ebml.rs lines 702-718).  `value.ilog2() + 1` is the
bit length; the `_ => todo!("error")` arm for more than 56 bits is `none`. -/
def vint_bytes_required (value : Nat) : Option Nat :=
  if value = 0 then some 1
  else if log2n value + 1 ≤ 7 then some 1
  else if log2n value + 1 ≤ 14 then some 2
  else if log2n value + 1 ≤ 21 then some 3
  else if log2n value + 1 ≤ 28 then some 4
  else if log2n value + 1 ≤ 35 then some 5
  else if log2n value + 1 ≤ 42 then some 6
  else if log2n value + 1 ≤ 49 then some 7
  else if log2n value + 1 ≤ 56 then some 8
  else none

/-- `write_vint` (ebml.rs lines 651-660): or the marker into the value and
emit the trailing `bytes_required` bytes of its big-endian representation. -/
def write_vint (value : Nat) : Option (List Nat) :=
  (vint_bytes_required value).map fun b =>
    let marker := 1 <<< (8 - b)
    let v := value ||| (marker <<< ((b - 1) * 8))
    (beBytes 8 v).drop (8 - b)

/-- `write_vid` (ebml.rs lines 662-668): emit the id as `(ilog2 id + 7) / 8`
big-endian bytes; `id.ilog2()` panics on 0. -/
def write_vid (id : Nat) : Option (List Nat) :=
  if id = 0 then none
  else
    let len := (log2n id + 7) / 8
    some ((List.range len).reverse.map fun i => (id >>> (8 * i)) % 256)

/-- The loop of `write_uint_elem`; the fuel argument only bounds the
recursion (`value / 256 < value`), the loop runs while `value > 0`. -/
def write_uint_go : Nat → Nat → List Nat
  | 0, _ => []
  | fuel + 1, value => if value = 0 then [] else (value % 256) :: write_uint_go fuel (value / 256)

/-- `write_uint_elem` (ebml.rs lines 678-684): emits the bytes of `value`
low byte first (and nothing at all for zero). -/
def write_uint_elem (value : Nat) : List Nat := write_uint_go value value

/-- The loop of `write_int_elem` (fuel as above). -/
def write_int_go : Nat → Int → List Nat
  | 0, _ => []
  | fuel + 1, value =>
    if value ≤ 0 then [] else (value % 256).toNat :: write_int_go fuel (value / 256)

/-- `write_int_elem` (ebml.rs lines 670-676): the same loop over an `i64`,
running only while the value is strictly positive. -/
def write_int_elem (value : Int) : List Nat := write_int_go value.toNat value

/-- `int_element_bytes_required` (ebml.rs lines 686-692); `i64::ilog2` panics
for non-positive input, and the source has no `+ 1`. -/
def int_element_bytes_required (value : Int) : Option Nat :=
  if value = 0 then some 1
  else if value < 0 then none
  else some (log2n value.toNat / 8)

/-- `uint_element_bytes_required` (ebml.rs lines 694-700). -/
def uint_element_bytes_required (value : Nat) : Nat :=
  if value = 0 then 1 else log2n value / 8

/-- `EbmlLength::size` (ebml.rs lines 86-91): one single byte is declared for
any unknown length, whatever its width argument. -/
def EbmlLength.size : EbmlLength → Option Nat
  | .known n => vint_bytes_required n
  | .unknown _ => some 1

/-- `EbmlLength::write` (ebml.rs lines 93-98): a known length is a VINT, any
unknown length is the single byte `0xFF`. -/
def EbmlLength.writeBytes : EbmlLength → Option (List Nat)
  | .known n => write_vint n
  | .unknown _ => some [0xFF]

/-- `EbmlId::size` (ebml.rs lines 76-78). -/
def ebmlIdSize (id : Nat) : Option Nat :=
  if id = 0 then none else some ((log2n id + 7) / 8)

/-! ## Definitions continue below; all theorems follow the definitions. -/

mutual

/-- `EbmlValue` (ebml.rs lines 39-45): strings are kept as their UTF-8 bytes
and `Binary` spans as their byte content; `Children` nests a list of
elements, each an id paired with a value (the child list is its own
inductive so that the recursions below stay structural). -/
inductive EbmlValue where
  | int (v : Int)
  | uint (v : Nat)
  | str (s : List Nat)
  | binary (b : List Nat)
  | children (els : EbmlChildren)

/-- A `&[EbmlElement]` child list. -/
inductive EbmlChildren where
  | nil
  | cons (id : Nat) (v : EbmlValue) (rest : EbmlChildren)

end

/-- Build a child list from a `List`. -/
def elist : List (Nat × EbmlValue) → EbmlChildren
  | [] => .nil
  | (id, v) :: rest => .cons id v (elist rest)

mutual

/-- `EbmlValue::size` (ebml.rs lines 48-56).  Note the `+ 1` on the `UInt`
arm and its absence on the `Int` arm, exactly as in the source. -/
def ebmlValueSize : EbmlValue → Option Nat
  | .int v => int_element_bytes_required v
  | .uint v => some (uint_element_bytes_required v + 1)
  | .str s => some s.length
  | .binary b => some b.length
  | .children els => ebmlChildrenSize els

/-- Sum of `EbmlElement::full_size` (ebml.rs lines 124-128: id size plus the
size of the `Known(content_size)` length plus the content size) over a child
list, as `EbmlValue::size` takes it on the `Children` arm (ebml.rs line 54). -/
def ebmlChildrenSize : EbmlChildren → Option Nat
  | .nil => some 0
  | .cons id v rest => do
    let c ← ebmlValueSize v
    let idSz ← ebmlIdSize id
    let lenSz ← EbmlLength.size (.known c)
    let b ← ebmlChildrenSize rest
    pure ((idSz + lenSz + c) + b)

end

/-- `EbmlElement::full_size` (ebml.rs lines 124-128). -/
def ebmlElementFullSize (id : Nat) (v : EbmlValue) : Option Nat := do
  let c ← ebmlValueSize v
  let idSz ← ebmlIdSize id
  let lenSz ← EbmlLength.size (.known c)
  pure (idSz + lenSz + c)

mutual

/-- `EbmlValue::write` (ebml.rs lines 58-72). -/
def ebmlValueWrite : EbmlValue → Option (List Nat)
  | .int v => some (write_int_elem v)
  | .uint v => some (write_uint_elem v)
  | .str s => some s
  | .binary b => some b
  | .children els => ebmlChildrenWrite els

/-- The `Children` arm of `EbmlValue::write` loops `el.write(buf)` over the
child list; each `EbmlElement::write` (ebml.rs lines 134-139) is its id, the
declared `Known(size)` length, then the value bytes. -/
def ebmlChildrenWrite : EbmlChildren → Option (List Nat)
  | .nil => some []
  | .cons id v rest => do
    let idB ← write_vid id
    let c ← ebmlValueSize v
    let lenB ← EbmlLength.writeBytes (.known c)
    let vB ← ebmlValueWrite v
    let b ← ebmlChildrenWrite rest
    pure ((idB ++ lenB ++ vB) ++ b)

end

/-- `EbmlElement::write` (ebml.rs lines 134-139). -/
def ebmlElementWrite (id : Nat) (v : EbmlValue) : Option (List Nat) := do
  let idB ← write_vid id
  let c ← ebmlValueSize v
  let lenB ← EbmlLength.writeBytes (.known c)
  let vB ← ebmlValueWrite v
  pure (idB ++ lenB ++ vB)

/-- `EbmlMasterElement::write` (ebml.rs lines 113-120): id, then the known
length computed from the children sizes, then the children in order. -/
def ebmlMasterWrite (id : Nat) (children : EbmlChildren) :
    Option (List Nat) := do
  let idB ← write_vid id
  let sz ← ebmlChildrenSize children
  let lenB ← write_vint sz
  let body ← ebmlChildrenWrite children
  pure (idB ++ lenB ++ body)

/-! ## EBML ids

Modelled from the spec: the `EbmlId` constants used by mkv/demux.rs and
mkv/mux.rs live in a module of this repository that is not under src/ (the
mkv module file shipping the submodule declarations); their numeric values
are the canonical ids of spec section 6. -/

def EBML_HEADER : Nat := 0x1A45DFA3
def EBML_VERSION : Nat := 0x4286
def EBML_READ_VERSION : Nat := 0x42F7
def EBML_DOC_MAX_ID_LENGTH : Nat := 0x42F2
def EBML_DOC_MAX_SIZE_LENGTH : Nat := 0x42F3
def EBML_DOC_TYPE : Nat := 0x4282
def EBML_DOC_TYPE_VERSION : Nat := 0x4287
def EBML_DOC_TYPE_READ_VERSION : Nat := 0x4285
def SEGMENT : Nat := 0x18538067
def INFO : Nat := 0x1549A966
def TIMESTAMP_SCALE : Nat := 0x2AD7B1
def WRITING_APP : Nat := 0x4D80
def MUXING_APP : Nat := 0x5741
def TRACKS : Nat := 0x1654AE6B
def TRACK_ENTRY : Nat := 0xAE
def TRACK_NUMBER : Nat := 0xD7
def TRACK_UID : Nat := 0x73C5
def TRACK_TYPE : Nat := 0x83
def CODEC_ID : Nat := 0x86
def CODEC_PRIVATE : Nat := 0x63A2
def VIDEO : Nat := 0xE0
def AUDIO : Nat := 0xE1
def PIXEL_WIDTH : Nat := 0xB0
def PIXEL_HEIGHT : Nat := 0xBA
def FLAG_INTERLACED : Nat := 0x9A
def SAMPLING_FREQUENCY : Nat := 0xB5
def CHANNELS : Nat := 0x9F
def BIT_DEPTH : Nat := 0x6264
def CLUSTER : Nat := 0x1F43B675
def TIMESTAMP : Nat := 0xE7
def SIMPLE_BLOCK : Nat := 0xA3
def CUES : Nat := 0x1C53BB6B

/-! ## Media model

Modelled from the spec: the `CodecId` enum and the flat `MediaInfo` record
used by mkv/demux.rs and mkv/mux.rs are re-exported from a module of this
repository that is not under src/; spec section 3 gives
`codec_id: CodecId (enum {Unknown, H264, Aac, WebVtt, Ass, ...})`,
`codec_private: Span`, video fields and audio fields, and section 4.6 pairs
track types 1 / 2 / 17 with video / audio / subtitle codecs. -/

inductive CodecId where
  | unknown
  | h264
  | aac
  | webVtt
  | ass
  deriving Repr, DecidableEq

/-- Modelled from the spec: `CodecId::is_video` (H264 is the only video
codec in the enum). -/
def CodecId.isVideo : CodecId → Bool
  | .h264 => true
  | _ => false

/-- Modelled from the spec: `CodecId::is_audio` (Aac is the only audio
codec). -/
def CodecId.isAudio : CodecId → Bool
  | .aac => true
  | _ => false

/-- Modelled from the spec: `CodecId::is_subtitle` (WebVtt and Ass). -/
def CodecId.isSubtitle : CodecId → Bool
  | .webVtt => true
  | .ass => true
  | _ => false

/-- Modelled from the spec: the flat `MediaInfo` record consumed by
mkv/mux.rs (`codec_id`, `codec_private`, `width`, `height`); `Default`
zero-initialises it with `CodecId::Unknown`. -/
structure MediaInfo where
  codecId : CodecId := .unknown
  codecPrivate : List Nat := []
  width : Nat := 0
  height : Nat := 0
  deriving Repr, DecidableEq

instance : Inhabited MediaInfo := ⟨{}⟩

/-- `Track` (media.rs): id plus media info; the timebase is kept as a pair
numerator/denominator. -/
structure Track where
  id : Nat
  info : MediaInfo
  timebase : Nat × Nat
  deriving Repr, DecidableEq

/-! ## Matroska muxer (src/mediabox/src/format/mkv/mux.rs)

`ScratchMemory::write` is modelled at byte level: every successful muxer
step is the concatenation of the bytes its writers produce (the `NeedMore`
retry loop of the pipeline always re-runs the step with a larger scratch, so
the byte content of the successful step is what reaches the output). -/

/-- `to_mkv_codec_id` (mux.rs lines 172-180), as UTF-8 bytes. -/
def to_mkv_codec_id : CodecId → List Nat
  | .h264 => [86, 95, 77, 80, 69, 71, 52, 47, 73, 83, 79, 47, 65, 86, 67]
  | .aac => [65, 95, 65, 65, 67]
  | .webVtt => [83, 95, 84, 69, 88, 84, 47, 87, 69, 66, 86, 84, 84]
  | .ass => [83, 95, 84, 69, 88, 84, 47, 65, 83, 83]
  | .unknown => [117, 110, 107, 110, 111, 119, 110]

/-- `get_track_type` (mux.rs lines 256-266); the final arm is
`panic!("Unknown track type")`. -/
def get_track_type (codec : CodecId) : Option Nat :=
  if codec.isVideo then some 1
  else if codec.isAudio then some 2
  else if codec.isSubtitle then some 17
  else none

/-- The child list of one `TrackEntry` as built by `get_tracks`
(mux.rs lines 217-243). -/
def trackEntryChildren (track : Track) : EbmlChildren :=
  elist
    ([(TRACK_NUMBER, .uint track.id),
      (TRACK_UID, .uint track.id),
      (TRACK_TYPE, .uint ((get_track_type track.info.codecId).getD 0)),
      (CODEC_ID, .str (to_mkv_codec_id track.info.codecId)),
      (CODEC_PRIVATE, .binary track.info.codecPrivate)] ++
     (if track.info.codecId.isVideo then
       [(VIDEO, .children (elist
         [(PIXEL_WIDTH, .uint track.info.width),
          (PIXEL_HEIGHT, .uint track.info.height),
          (FLAG_INTERLACED, .uint 2)]))]
     else []))

/-- `get_tracks` (mux.rs lines 211-254): each track entry is written as a
master element, the results are wrapped as a `TRACKS` element whose length is
the byte length of the content (`make_element`, mux.rs lines 161-170).
The `get_track_type` panic on an unknown codec is `none`. -/
def getTracksBytes (movie : List Track) : Option (List Nat) := do
  let contents ← movie.mapM fun track => do
    let _ ← get_track_type track.info.codecId
    ebmlMasterWrite TRACK_ENTRY (trackEntryChildren track)
  let content := contents.join
  let tracksId ← write_vid TRACKS
  let lenB ← write_vint content.length
  pure (tracksId ++ lenB ++ content)

/-- The `EBMLHeader` children written by `MatroskaMuxer::start`
(mux.rs lines 43-53); there is no `DocTypeReadVersion` entry. -/
def startEbmlHeaderChildren : EbmlChildren :=
  elist
    [(EBML_VERSION, .uint 1),
     (EBML_READ_VERSION, .uint 1),
     (EBML_DOC_MAX_ID_LENGTH, .uint 4),
     (EBML_DOC_MAX_SIZE_LENGTH, .uint 8),
     (EBML_DOC_TYPE, .str [109, 97, 116, 114, 111, 115, 107, 97]),
     (EBML_DOC_TYPE_VERSION, .uint 1)]

/-- `MatroskaMuxer::start` (mux.rs lines 42-80): EBML header master, Segment
id, `EbmlLength::Unknown(8)` written via `EbmlLength::write`, the Info
master (WritingApp and MuxingApp carry `crate::NAME`, a constant not under
src/ and therefore a parameter here), then the Tracks element. -/
def mkvStart (name : List Nat) (movie : List Track) : Option (List Nat) := do
  let header ← ebmlMasterWrite EBML_HEADER startEbmlHeaderChildren
  let segId ← write_vid SEGMENT
  let segLen ← EbmlLength.writeBytes (.unknown 8)
  let info ← ebmlMasterWrite INFO
    (elist [(WRITING_APP, .str name), (MUXING_APP, .str name)])
  let tracks ← getTracksBytes movie
  pure (header ++ segId ++ segLen ++ info ++ tracks)

/-! ## NAL bitstream (src/mediabox/src/codec/nal.rs)

A `Span` is modelled by its byte content (a `List Nat`): `len` is the list
length, and `slice` on the rope concatenations produced and consumed here
extracts the byte range, truncated at the end of the span exactly as
`Span::slice_range` walks only the fragments that exist. -/

/-- `BitstreamFraming` (nal.rs lines 17-29). -/
inductive BitstreamFraming where
  | fourByteLength
  | twoByteLength
  | fourByteStartCode
  deriving Repr, DecidableEq

/-- The length-prefix width of the two length framings. -/
def framingWidth : BitstreamFraming → Nat
  | .twoByteLength => 2
  | .fourByteLength => 4
  | .fourByteStartCode => 0

/-- The loop of `parse_bitstream_length_field` (nal.rs lines 45-70), indexed
by the running cursor `i`.  The loop bound `len - N` is usize arithmetic, so
it wraps when `len < N`; the `<[u8; N]>::try_from(..).unwrap()` panic on a
short length slice is `none`.  Fuel only bounds the recursion; it strictly
exceeds the iteration count for every input reachable from `some`. -/
def parseLengthLoop (N : Nat) (bs : List Nat) : Nat → Nat → Option (List (List Nat))
  | 0, _ => none
  | fuel + 1, i =>
    if i < (if N ≤ bs.length then bs.length - N else bs.length + (2 ^ 64 - N)) then
      if ((bs.drop i).take N).length = N then
        (parseLengthLoop N bs fuel (i + N + beFold 0 ((bs.drop i).take N))).map
          (fun nals => (bs.drop (i + N)).take (beFold 0 ((bs.drop i).take N)) :: nals)
      else none
    else some []

/-- `parse_bitstream_length_field` (nal.rs lines 45-70). -/
def parse_bitstream_length_field (N : Nat) (bs : List Nat) :
    Option (List (List Nat)) :=
  parseLengthLoop N bs (bs.length + 1) 0

/-- `parse_bitstream` (nal.rs lines 110-120).  The Annex B branch drives the
external h264_reader crate (an out-of-scope collaborator per spec section 1)
and is left unmodelled. -/
def parse_bitstream (bs : List Nat) : BitstreamFraming → Option (List (List Nat))
  | .twoByteLength => parse_bitstream_length_field 2 bs
  | .fourByteLength => parse_bitstream_length_field 4 bs
  | .fourByteStartCode => none

/-- `frame_nal_units_with_length` (nal.rs lines 135-148): an `N`-byte
big-endian length prefix before every NAL (the `u16` / `u32` cast of the
source is the truncating `%`). -/
def frameLengthPrefixed (N : Nat) (nals : List (List Nat)) : List Nat :=
  nals.foldr (fun nal acc => beBytes N (nal.length % 2 ^ (8 * N)) ++ (nal ++ acc)) []

/-- `frame_nal_units` (nal.rs lines 153-165): a length prefix or the
four-byte start code before every NAL. -/
def frame_nal_units (nals : List (List Nat)) : BitstreamFraming → List Nat
  | .twoByteLength => frameLengthPrefixed 2 nals
  | .fourByteLength => frameLengthPrefixed 4 nals
  | .fourByteStartCode => nals.foldr (fun nal acc => [0, 0, 0, 1] ++ (nal ++ acc)) []

/-- `convert_bitstream` (nal.rs lines 169-182): identity when the framings
coincide, otherwise parse then reframe. -/
def convert_bitstream (bs : List Nat) (source target : BitstreamFraming) :
    Option (List Nat) :=
  if source = target then some bs
  else (parse_bitstream bs source).map (fun nals => frame_nal_units nals target)

/-! ## Growable buffered reader (src/mediabox/src/buffer.rs)

Only the four index fields matter for the claimed invariants; the byte
contents of the external buffer are not consulted by them.  The inner
reader is abstracted by the values its `read` and `seek` calls return. -/

/-- The index state of `GrowableBufferedReader`; `bufLen` is the length of
the caller-supplied buffer the next operation will run against. -/
structure RState where
  bufPos : Nat
  pos : Nat
  e : Nat
  bufLen : Nat
  idx : Nat
  deriving Repr, DecidableEq

/-- `GrowableBufferedReader::new` paired with the zero-length buffer that
`DemuxerContext::open_with_pool` allocates for it. -/
def initRState : RState := ⟨0, 0, 0, 0, 0⟩

/-- `reset_buffer_position` (buffer.rs lines 33-41). -/
def resetBufferPosition (s : RState) : RState :=
  { s with bufPos := s.bufPos + s.pos, e := s.e - s.pos, pos := 0 }

/-- `Buffered::consume` (buffer.rs lines 136-141). -/
def consumeOp (amt : Nat) (s : RState) : RState :=
  { s with pos := min (s.pos + amt) s.e, idx := s.idx + amt }

/-- `ensure_capacity` (buffer.rs lines 54-67); `buf.resize` is reached only
with `len > buf.len()`, so `bufLen` never shrinks. -/
def ensureCapacityOp (len : Nat) (s : RState) : RState :=
  if len ≤ s.bufLen - s.pos then s
  else if len ≤ s.bufLen then resetBufferPosition s
  else { s with bufLen := len }

/-- `ensure_additional` (buffer.rs lines 48-52). -/
def ensureAdditionalOp (more : Nat) (s : RState) : RState :=
  ensureCapacityOp (s.e - s.pos + more) s

/-- `fill_buf` (buffer.rs lines 77-97), parameterised by the byte count `r`
the inner `read` returns; the `Bool` is true when the call returns `Ok`.
When `pos == 0 && end == buf.len()` the source skips the whole body and
returns `Ok` without reading. -/
def fillBufOp (r : Nat) (s : RState) : Bool × RState :=
  if s.pos ≠ 0 ∨ s.e ≠ s.bufLen then
    let s1 := resetBufferPosition s
    if r = 0 then (false, s1)
    else (true, { s1 with e := s1.e + r })
  else (true, s)

/-- `Seek::seek` with `SeekFrom::Current` (buffer.rs lines 101-129),
parameterised by the absolute position `q` the inner seek returns when one
is issued (`none` models an inner seek error, which leaves the fields
untouched because the `?` returns before they are assigned). -/
def seekCurrentOp (delta : Int) (q : Option Nat) (s : RState) : RState :=
  let absPos : Int := (s.bufPos : Int) + s.pos
  let absEnd : Int := (s.bufPos : Int) + s.e
  let newPos : Int := absPos + delta
  if newPos > absEnd ∨ newPos < (s.bufPos : Int) then
    match q with
    | some q => { s with bufPos := q, pos := 0, e := 0 }
    | none => s
  else { s with pos := (newPos - s.bufPos).toNat }

/-- `Seek::seek` with `SeekFrom::Start` or `SeekFrom::End`: the inner seek
is always issued. -/
def seekAbsoluteOp (q : Option Nat) (s : RState) : RState :=
  match q with
  | some q => { s with bufPos := q, pos := 0, e := 0 }
  | none => s

/-- One reader operation, carrying the inner reader responses. -/
inductive ROp where
  | consume (amt : Nat)
  | ensureCapacity (len : Nat)
  | ensureAdditional (more : Nat)
  | fill (r : Nat)
  | seekCurrent (delta : Int) (q : Option Nat)
  | seekAbsolute (q : Option Nat)

def stepR (op : ROp) (s : RState) : RState :=
  match op with
  | .consume amt => consumeOp amt s
  | .ensureCapacity len => ensureCapacityOp len s
  | .ensureAdditional more => ensureAdditionalOp more s
  | .fill r => (fillBufOp r s).2
  | .seekCurrent delta q => seekCurrentOp delta q s
  | .seekAbsolute q => seekAbsoluteOp q s

def runR (ops : List ROp) (s : RState) : RState :=
  ops.foldl (fun s op => stepR op s) s

/-- The `Read` contract: a successful `read` into `buf[end..]` returns at
most the space available there (after the compaction `fill_buf` performs). -/
def rOpValid (op : ROp) (s : RState) : Prop :=
  match op with
  | .fill r => r ≤ s.bufLen - (s.e - s.pos)
  | _ => True

instance (op : ROp) (s : RState) : Decidable (rOpValid op s) := by
  unfold rOpValid
  cases op <;> infer_instance

def rSeqValid : List ROp → RState → Prop
  | [], _ => True
  | op :: rest, s => rOpValid op s ∧ rSeqValid rest (stepR op s)

/-- The claimed index invariant of the reader. -/
def rInv (s : RState) : Prop := s.pos ≤ s.e ∧ s.e ≤ s.bufLen

instance (s : RState) : Decidable (rInv s) := by
  unfold rInv; infer_instance

/-! ## Matroska demuxer (src/mediabox/src/format/mkv/demux.rs) -/

/-- `MkvSimpleBlock` (demux.rs lines 50-56). -/
structure MkvSimpleBlock where
  trackNumber : Nat
  timestamp : Int
  flags : Nat
  buffer : List Nat
  deriving Repr, DecidableEq

/-- Reinterpret a big-endian `u16` as an `i16` (`nom::number::streaming::be_i16`). -/
def toI16 (v : Nat) : Int :=
  if v % 2 ^ 16 < 2 ^ 15 then (v % 2 ^ 16 : Nat) else (v % 2 ^ 16 : Nat) - 2 ^ 16

/-- `read_simple_block` (demux.rs lines 58-71): track-number VINT, signed
16-bit big-endian timestamp, flags byte; everything after them is the block
buffer. -/
def read_simple_block (input : List Nat) : Option MkvSimpleBlock := do
  let (trackNumber, r1) ← ebml_vint input
  match r1 with
  | hi :: lo :: flags :: rest =>
    some ⟨trackNumber, toI16 (hi * 256 + lo), flags, rest⟩
  | _ => none

/-- `u64::checked_add_signed`. -/
def u64CheckedAddSigned (a : Nat) (b : Int) : Option Nat :=
  if 0 ≤ (a : Int) + b ∧ (a : Int) + b < 2 ^ 64 then some ((a : Int) + b).toNat
  else none

/-- A demuxed packet; only the fields the claims speak about. -/
structure Packet where
  pts : Nat
  key : Bool
  track : Track
  buffer : List Nat
  deriving Repr, DecidableEq

/-- `MatroskaDemuxer::convert_block_to_packet` (demux.rs lines 382-397):
find the track whose `u32` id equals the block track number cast to `u32`,
clamp `cluster_ts + timestamp` to `u64` with 0 on failure, keyframe from
bit 7 of the flags. -/
def convert_block_to_packet (tracks : List Track) (currentClusterTs : Nat)
    (blk : MkvSimpleBlock) : Option Packet :=
  match tracks.find? (fun t => t.id = blk.trackNumber % 2 ^ 32) with
  | none => none
  | some track =>
    some { pts := (u64CheckedAddSigned currentClusterTs blk.timestamp).getD 0,
           key := blk.flags &&& 0b10000000 ≠ 0,
           track := track,
           buffer := blk.buffer }

/-- `MkvTrack` (demux.rs lines 185-193); the audio sub-record is irrelevant
to the claims and omitted from the accumulator. -/
structure MkvTrack where
  number : Option Nat := none
  uid : Option Nat := none
  ty : Option Nat := none
  codecId : Option (List Nat) := none
  codecPrivate : Option (List Nat) := none

/-- `convert_track` (demux.rs lines 150-165).  The source reads
`mand(track.number, CODEC_ID)` — it tests the presence of the track number a
second time, not of the codec id — and `fill_video_info`,
`fill_audio_info` and `fill_subtitle_info` (demux.rs lines 167-177) leave
the default `MediaInfo` untouched; an unsupported track type bails. -/
def convert_track (track : MkvTrack) : Option (Nat × MediaInfo) := do
  let number ← track.number
  let ty ← track.ty
  let _codecIdCheck ← track.number
  let info : MediaInfo := {}
  if ty = 1 ∨ ty = 2 ∨ ty = 17 then pure (number, info) else none

/-- `convert_tracks` (demux.rs lines 400-419): tracks whose conversion fails
are logged and dropped; ids are cast to `u32`. -/
def convert_tracks (timebase : Nat × Nat) (mkvTracks : List MkvTrack) :
    List Track :=
  mkvTracks.filterMap fun t =>
    (convert_track t).map fun p => ⟨p.1 % 2 ^ 32, p.2, timebase⟩

/-! ## Probe (demux.rs lines 727-746) -/

/-- The four Aho-Corasick patterns of `MatroskaDemuxer::probe`: the probe
takes `EbmlId.0.to_be_bytes()` of the `u64`-valued ids — eight bytes, with
four leading zero bytes — plus the ASCII string `matroska`. -/
def probePatterns : List (List Nat) :=
  [beBytes 8 EBML_HEADER,
   [109, 97, 116, 114, 111, 115, 107, 97],
   beBytes 8 SEGMENT,
   beBytes 8 CLUSTER]

/-- Whether some probe pattern matches at the front of `l`. -/
def probeHit (l : List Nat) : Bool :=
  probePatterns.any fun p => p.isPrefixOf l

/-- The number of matches `AhoCorasick::find_iter` reports.  With standard
match semantics the iterator reports the match that ends first (all four
patterns have length 8, so that is the one that starts first; two distinct
patterns of equal length cannot match at the same spot) and resumes after
its end. -/
def probeScanGo : Nat → List Nat → Nat
  | 0, _ => 0
  | _, [] => 0
  | fuel + 1, x :: rest =>
    if probeHit (x :: rest) then 1 + probeScanGo fuel ((x :: rest).drop 8)
    else probeScanGo fuel rest

def probeScan (data : List Nat) : Nat := probeScanGo data.length data

/-- `ProbeResult` (format.rs lines 239-244), with the `f32` score of the
`Maybe` arm carried as its exact number of quarters (the probe only builds
`Maybe` scores below 1.0, where `0.25 * count` is exact in `f32`). -/
inductive ProbeResult where
  | yup
  | maybe (quarters : Nat)
  | unsure
  deriving Repr, DecidableEq

/-- `MatroskaDemuxer::probe` (demux.rs lines 727-746): a quarter point per
match; `score >= 1.0` is `Yup`, everything else — including a zero score —
is `Maybe(score)`. -/
def mkvProbe (data : List Nat) : ProbeResult :=
  if 4 ≤ probeScan data then .yup else .maybe (probeScan data)

/-- The number of positions of `data` at which some probe pattern occurs
(the spec counts a quarter point per occurrence). -/
def occCount (data : List Nat) : Nat :=
  ((List.range data.length).filter fun i => probeHit (data.drop i)).length

/-- The all-ones VINT of byte width `w` (for `1 ≤ w ≤ 8`): marker byte with
every payload bit set, followed by `w - 1` bytes of `0xFF`. -/
def allOnesVint (w : Nat) : List Nat :=
  (2 ^ (9 - w) - 1) :: List.replicate (w - 1) 0xFF

/-- The bytes `MatroskaMuxer::start` emits before the Info element: the
EBML header master (six children, no DocTypeReadVersion), the Segment id,
and the single `0xFF` that `EbmlLength::Unknown(8)` writes. -/
def startPrefixBytes : List Nat :=
  [0x1A, 0x45, 0xDF, 0xA3, 0x9F,
   0x42, 0x86, 0x81, 0x01,
   0x42, 0xF7, 0x81, 0x01,
   0x42, 0xF2, 0x81, 0x04,
   0x42, 0xF3, 0x81, 0x08,
   0x42, 0x82, 0x88, 0x6D, 0x61, 0x74, 0x72, 0x6F, 0x73, 0x6B, 0x61,
   0x42, 0x87, 0x81, 0x01,
   0x18, 0x53, 0x80, 0x67,
   0xFF]

/-- The ASCII bytes of `mediabox`, standing in for `crate::NAME`. -/
def mediaboxNameBytes : List Nat := [109, 101, 100, 105, 97, 98, 111, 120]

/-- `mkvStart mediaboxNameBytes []` evaluates to exactly these bytes. -/
def mkvStartEmptyBytes : List Nat :=
  [26, 69, 223, 163, 159, 66, 134, 129, 1, 66, 247, 129, 1, 66, 242, 129, 4,
   66, 243, 129, 8, 66, 130, 136, 109, 97, 116, 114, 111, 115, 107, 97, 66,
   135, 129, 1, 24, 83, 128, 103, 255, 21, 73, 169, 102, 150, 77, 128, 136,
   109, 101, 100, 105, 97, 98, 111, 120, 87, 65, 136, 109, 101, 100, 105, 97,
   98, 111, 120, 22, 84, 174, 107, 128]

/-- The `V_MPEG4/ISO/AVC` TrackEntry of the C5 counterexample. -/
def c5AvcTrack : MkvTrack :=
  { number := some 1, ty := some 1,
    codecId := some [86, 95, 77, 80, 69, 71, 52, 47, 73, 83, 79, 47, 65, 86, 67] }

/-- A TrackEntry with the unsupported track type 3. -/
def c5OtherTrack : MkvTrack :=
  { number := some 2, ty := some 3, codecId := some [65, 95, 65, 65, 67] }

/-- A concrete probe window holding one occurrence of each of the four
probe patterns, back to back. -/
def probeWitnessData : List Nat :=
  beBytes 8 EBML_HEADER ++
    ([109, 97, 116, 114, 111, 115, 107, 97] ++
      (beBytes 8 SEGMENT ++ beBytes 8 CLUSTER))

/-! # Theorems -/

/-! ## Helper facts about the byte codecs -/

theorem beBytes_length (n x : Nat) : (beBytes n x).length = n := by
  induction n generalizing x with
  | zero => rfl
  | succ n ih => simp [beBytes, ih]

theorem beBytes_lt (n x : Nat) : ∀ b ∈ beBytes n x, b < 256 := by
  induction n generalizing x with
  | zero => intro b hb; simp [beBytes] at hb
  | succ n ih =>
    intro b hb
    simp only [beBytes, List.mem_cons] at hb
    rcases hb with h | h
    · exact h ▸ Nat.mod_lt _ (by norm_num)
    · exact ih x b h

/-- Disjoint or is addition: the payload bits sit strictly below the marker. -/
theorem lor_eq_add_of_lt {a b n : Nat} (h : b < 2 ^ n) :
    a * 2 ^ n ||| b = a * 2 ^ n + b := by
  apply Nat.eq_of_testBit_eq
  intro i
  rw [Nat.testBit_lor, Nat.mul_comm a, Nat.testBit_mul_pow_two_add a h i,
    Nat.testBit_mul_pow_two]
  by_cases hi : i < n
  · simp [hi, Nat.not_le.mpr hi]
  · have hb : b.testBit i = false :=
      Nat.testBit_lt_two_pow
        (lt_of_lt_of_le h (Nat.pow_le_pow_right (by norm_num) (Nat.le_of_not_lt hi)))
    simp [hi, hb, Nat.le_of_not_lt hi]

theorem shiftLeft_lor_eq_add {a b : Nat} (h : b < 256) :
    (a <<< 8) ||| b = a * 256 + b := by
  have := lor_eq_add_of_lt (a := a) (n := 8) h
  simpa [Nat.shiftLeft_eq] using this

/-- Folding the shift-or loop over big-endian bytes of `x` reconstructs
`acc * 2^(8n) + x mod 2^(8n)`. -/
theorem beFold_beBytes (n : Nat) : ∀ (acc x : Nat),
    beFold acc (beBytes n x) = acc * 2 ^ (8 * n) + x % 2 ^ (8 * n) := by
  induction n with
  | zero => intro acc x; simp [beFold, beBytes, Nat.mod_one]
  | succ n ih =>
    intro acc x
    have hb : (x / 2 ^ (8 * n)) % 256 < 256 := Nat.mod_lt _ (by norm_num)
    have step : beFold acc (beBytes (n + 1) x) =
        beFold (acc * 256 + (x / 2 ^ (8 * n)) % 256) (beBytes n x) := by
      simp [beFold, beBytes, List.foldl_cons, shiftLeft_lor_eq_add hb]
    rw [step, ih]
    have hsplit : x % 2 ^ (8 * (n + 1)) =
        ((x / 2 ^ (8 * n)) % 256) * 2 ^ (8 * n) + x % 2 ^ (8 * n) := by
      have h256 : (256 : Nat) = 2 ^ 8 := by norm_num
      have : x % (2 ^ (8 * n) * 2 ^ 8) =
          x % 2 ^ (8 * n) + 2 ^ (8 * n) * (x / 2 ^ (8 * n) % 2 ^ 8) := Nat.mod_mul
      have hpow : 2 ^ (8 * (n + 1)) = 2 ^ (8 * n) * 2 ^ 8 := by
        rw [← pow_add]; ring_nf
      rw [hpow, this, h256]
      ring
    rw [hsplit]
    ring

/-- `beBytes n` reads only the low `8n` bits of its argument (so the `u16` /
`u32` casts in the sources are absorbed by an explicit `%`). -/
theorem beBytes_congr (n : Nat) : ∀ {x y : Nat},
    x % 2 ^ (8 * n) = y % 2 ^ (8 * n) → beBytes n x = beBytes n y := by
  induction n with
  | zero => intro x y _; rfl
  | succ n ih =>
    intro x y h
    have hpow : 2 ^ (8 * (n + 1)) = 2 ^ (8 * n) * 256 := by
      have : (256 : Nat) = 2 ^ 8 := by norm_num
      rw [this, ← pow_add]; ring_nf
    have hdvd : (2 : Nat) ^ (8 * n) ∣ 2 ^ (8 * (n + 1)) := pow_dvd_pow 2 (by omega)
    have hhead : x / 2 ^ (8 * n) % 256 = y / 2 ^ (8 * n) % 256 := by
      have hx : x % 2 ^ (8 * (n + 1)) / 2 ^ (8 * n) = x / 2 ^ (8 * n) % 256 := by
        rw [hpow]; exact Nat.mod_mul_right_div_self x _ _
      have hy : y % 2 ^ (8 * (n + 1)) / 2 ^ (8 * n) = y / 2 ^ (8 * n) % 256 := by
        rw [hpow]; exact Nat.mod_mul_right_div_self y _ _
      rw [← Nat.mod_mod_of_dvd _ (dvd_refl _)] at hx hy
      calc x / 2 ^ (8 * n) % 256 = x % 2 ^ (8 * (n + 1)) / 2 ^ (8 * n) := by
              rw [← hx, Nat.mod_mod_of_dvd _ (dvd_refl _)]
        _ = y % 2 ^ (8 * (n + 1)) / 2 ^ (8 * n) := by rw [h]
        _ = y / 2 ^ (8 * n) % 256 := by rw [← hy, Nat.mod_mod_of_dvd _ (dvd_refl _)]
    have htail : x % 2 ^ (8 * n) = y % 2 ^ (8 * n) := by
      rw [← Nat.mod_mod_of_dvd x hdvd, ← Nat.mod_mod_of_dvd y hdvd, h]
    simp [beBytes, hhead, ih htail]

theorem beBytes_drop (m k x : Nat) : (beBytes (m + k) x).drop m = beBytes k x := by
  induction m with
  | zero => simp
  | succ m ih =>
    have : m + 1 + k = (m + k) + 1 := by omega
    rw [this]
    simpa [beBytes] using ih

/-! ## VINT round-trip (claim C2) -/

theorem log2f_eq (f : Nat) : ∀ n, n ≤ f → log2f f n = Nat.log2 n := by
  induction f with
  | zero =>
    intro n h
    have hn : n = 0 := by omega
    subst hn
    rw [log2f, Nat.log2]
    norm_num
  | succ f ih =>
    intro n h
    rw [log2f]
    by_cases h2 : n ≥ 2
    · have hdiv : n / 2 < n := Nat.div_lt_self (by omega) (by norm_num)
      rw [if_pos h2, ih (n / 2) (by omega)]
      conv_rhs => rw [Nat.log2]
      rw [if_pos h2]
    · rw [if_neg h2]
      conv_rhs => rw [Nat.log2]
      rw [if_neg h2]

theorem log2n_eq (n : Nat) : log2n n = Nat.log2 n := log2f_eq n n (Nat.le_refl n)

theorem vint_bytes_required_eq {v : Nat} (hv : v ≠ 0) (h56 : Nat.log2 v < 56) :
    vint_bytes_required v = some (Nat.log2 v / 7 + 1) := by
  unfold vint_bytes_required
  simp only [log2n_eq]
  rw [if_neg hv]
  split_ifs <;> first
    | exact congrArg some (by omega)
    | exact absurd (by omega : Nat.log2 v + 1 ≤ 56) (by assumption)

theorem div_mul_add_mod (v d : Nat) : v / d * d + v % d = v := Nat.div_add_mod' v d

theorem vint_bytes_required_bounds {v : Nat} (hv : v < 2 ^ 56) :
    ∃ b, vint_bytes_required v = some b ∧ 1 ≤ b ∧ b ≤ 8 ∧ v < 2 ^ (7 * b) ∧
      (b = 1 ∨ 2 ^ (7 * (b - 1)) ≤ v) := by
  by_cases h0 : v = 0
  · exact ⟨1, by simp [vint_bytes_required, h0], by omega, by omega,
      by simpa [h0] using Nat.pos_pow_of_pos 7 (by norm_num), Or.inl rfl⟩
  · have hlog : Nat.log2 v < 56 := (Nat.log2_lt h0).mpr hv
    refine ⟨Nat.log2 v / 7 + 1, vint_bytes_required_eq h0 hlog, by omega, by omega, ?_, ?_⟩
    · have h1 : v < 2 ^ (Nat.log2 v + 1) := (Nat.log2_lt h0).mp (by omega)
      exact lt_of_lt_of_le h1 (Nat.pow_le_pow_right (by norm_num) (by omega))
    · refine Or.inr ?_
      have h2 : 2 ^ Nat.log2 v ≤ v := Nat.log2_self_le h0
      exact le_trans (Nat.pow_le_pow_right (by norm_num) (by omega)) h2

/-- Decoding the `b`-byte VINT carrying marker plus payload `v` yields `v`
and consumes exactly `b` bytes, for any trailing input. -/
theorem ebml_vint_marker (c : Nat) (hc : c ≤ 7) {v : Nat} (hv : v < 2 ^ (7 * (c + 1)))
    (rest : List Nat) :
    ebml_vint (beBytes (c + 1) (v + 2 ^ (7 * (c + 1))) ++ rest) = some (v, rest) := by
  set b := c + 1 with hbdef
  set d : Nat := 2 ^ (8 * c) with hd
  set x : Nat := v + 2 ^ (7 * b) with hx
  have hmarker : (2 : Nat) ^ (7 * b) = 2 ^ (8 - b) * d := by
    rw [hd, ← pow_add]
    congr 1
    omega
  have hdpos : 0 < d := Nat.pos_pow_of_pos _ (by norm_num)
  have hvd : v / d < 2 ^ (8 - b) := by
    apply Nat.div_lt_of_lt_mul
    calc v < 2 ^ (7 * b) := hv
      _ = 2 ^ (8 - b) * d := hmarker
      _ = d * 2 ^ (8 - b) := by ring
  have hfb : x / d = v / d + 2 ^ (8 - b) := by
    rw [hx, hmarker, Nat.add_mul_div_right v _ hdpos]
  have hfb_lo : 2 ^ (8 - b) ≤ x / d := by
    rw [hfb]; exact Nat.le_add_left _ _
  have hfb_hi : x / d < 2 ^ (8 - b + 1) := by
    have := pow_succ 2 (8 - b)
    omega
  have hfb_ne : x / d ≠ 0 := by
    have := Nat.pos_pow_of_pos (8 - b) (show 0 < 2 by norm_num)
    omega
  have hlog : Nat.log2 (x / d) = 8 - b := by
    refine le_antisymm ?_ ?_
    · have := (Nat.log2_lt hfb_ne).mpr hfb_hi
      omega
    · exact (Nat.le_log2 hfb_ne).mpr hfb_lo
  have hclz : clz8 (x / d) = c := by
    rw [clz8, if_neg hfb_ne, log2n_eq, hlog]
    omega
  have hfb256 : x / d % 256 = x / d := by
    apply Nat.mod_eq_of_lt
    calc x / d < 2 ^ (8 - b + 1) := hfb_hi
      _ ≤ 2 ^ 8 := Nat.pow_le_pow_right (by norm_num) (by omega)
      _ = 256 := by norm_num
  have hcons : beBytes b x = x / d :: beBytes c x := by
    rw [hbdef, beBytes, hd, hfb256]
  rw [hcons]
  show ebml_vint (x / d :: (beBytes c x ++ rest)) = some (v, rest)
  rw [ebml_vint]
  simp only [hclz]
  rw [if_neg (by omega)]
  have hlen : (x / d :: (beBytes c x ++ rest)).length = (1 + c) + rest.length := by
    simp [beBytes_length]
    omega
  rw [if_neg (by rw [hlen]; omega)]
  have hdrop1 : (x / d :: (beBytes c x ++ rest)).drop 1 = beBytes c x ++ rest := rfl
  have htake : (beBytes c x ++ rest).take c = beBytes c x := by
    have := List.take_left (beBytes c x) rest
    rwa [beBytes_length] at this
  have hmask : x / d &&& ((1 <<< (8 - (1 + c))) - 1) = v / d := by
    rw [Nat.shiftLeft_eq, one_mul, Nat.and_pow_two_sub_one_eq_mod]
    have h8b : 8 - (1 + c) = 8 - b := by omega
    rw [h8b, hfb, Nat.add_mod_right, Nat.mod_eq_of_lt hvd]
  have hxmod : x % d = v % d := by
    rw [hx, hmarker, mul_comm, Nat.add_mul_mod_self_left]
  have hfold : beFold (v / d) (beBytes c x) = v := by
    rw [beFold_beBytes, hxmod, ← hd, div_mul_add_mod]
  have hdropb : (x / d :: (beBytes c x ++ rest)).drop (1 + c) = rest := by
    have h1c : (x / d :: (beBytes c x ++ rest)).drop (1 + c) =
        (beBytes c x ++ rest).drop c := by
      rw [Nat.add_comm 1 c]
      rfl
    rw [h1c]
    have := List.drop_left (beBytes c x) rest
    rwa [beBytes_length] at this
  rw [hdrop1, htake, hmask, hfold, hdropb]

/-- `write_vint v`, for `v < 2^56`, emits exactly the `b` marker-plus-payload
bytes where `b = vint_bytes_required v`. -/
theorem write_vint_eq {v b : Nat} (hreq : vint_bytes_required v = some b)
    (hb1 : 1 ≤ b) (hb8 : b ≤ 8) (hv : v < 2 ^ (7 * b)) :
    write_vint v = some (beBytes b (v + 2 ^ (7 * b))) := by
  rw [write_vint, hreq, Option.map_some']
  congr 1
  have hmarker : (1 <<< (8 - b)) <<< ((b - 1) * 8) = 2 ^ (7 * b) := by
    rw [Nat.shiftLeft_eq, Nat.shiftLeft_eq, one_mul, ← pow_add]
    congr 1
    omega
  have hor : v ||| 2 ^ (7 * b) = v + 2 ^ (7 * b) := by
    rw [Nat.lor_comm]
    have h := lor_eq_add_of_lt (a := 1) (n := 7 * b) hv
    simp only [one_mul] at h
    omega
  show List.drop (8 - b) (beBytes 8 (v ||| (1 <<< (8 - b)) <<< ((b - 1) * 8))) =
    beBytes b (v + 2 ^ (7 * b))
  rw [hmarker, hor]
  have hdropped := beBytes_drop (8 - b) b (v + 2 ^ (7 * b))
  rw [show (8 - b) + b = 8 from by omega] at hdropped
  exact hdropped

/-- C2: for every `v < 2^56`, `write_vint` emits the minimal-width VINT
encoding of `v` (`vint_bytes_required v` bytes, minimal such that `v` fits in
`7 b` bits), and `ebml_vint` decodes it back to exactly `v`, consuming all of
it and leaving any appended suffix untouched. -/
theorem c2_vint_round_trip (v : Nat) (hv : v < 2 ^ 56) :
    ∃ b enc, vint_bytes_required v = some b ∧ write_vint v = some enc ∧
      enc.length = b ∧ (∀ rest, ebml_vint (enc ++ rest) = some (v, rest)) ∧
      ebml_vint enc = some (v, []) ∧ v < 2 ^ (7 * b) ∧
      (∀ c, 0 < c → v < 2 ^ (7 * c) → b ≤ c) := by
  obtain ⟨b, hreq, hb1, hb8, hlt, hlow⟩ := vint_bytes_required_bounds hv
  have henc := write_vint_eq hreq hb1 hb8 hlt
  obtain ⟨c, rfl⟩ : ∃ c, b = c + 1 := ⟨b - 1, by omega⟩
  refine ⟨c + 1, _, hreq, henc, beBytes_length _ _, ?_, ?_, hlt, ?_⟩
  · intro rest
    exact ebml_vint_marker c (by omega) hlt rest
  · have := ebml_vint_marker c (by omega) hlt []
    simpa using this
  · intro k hk hklt
    rcases hlow with h1 | hlow
    · omega
    · by_contra hcon
      have hkc : k ≤ c := by omega
      have : 2 ^ (7 * k) ≤ 2 ^ (7 * (c + 1 - 1)) :=
        Nat.pow_le_pow_right (by norm_num) (by omega)
      omega

/-- Witness for C2 at `v = 0x3FFF`. -/
theorem c2_vint_round_trip_witness :
    ∃ b enc, vint_bytes_required 0x3FFF = some b ∧ write_vint 0x3FFF = some enc ∧
      enc.length = b ∧ (∀ rest, ebml_vint (enc ++ rest) = some (0x3FFF, rest)) ∧
      ebml_vint enc = some (0x3FFF, []) ∧ 0x3FFF < 2 ^ (7 * b) ∧
      (∀ c, 0 < c → 0x3FFF < 2 ^ (7 * c) → b ≤ c) :=
  c2_vint_round_trip 0x3FFF (by norm_num)

/-! ## Muxer start output (claim C3) -/

set_option maxRecDepth 100000

/-- C3 counterexample to the claim as stated: on a concrete Movie with no
tracks (and `mediabox` as the application name), `start` emits bytes that
contain no DocTypeReadVersion element at all — the id bytes `42 85` occur
nowhere in the output, while the claim requires a `DocTypeReadVersion=1`
child inside the EBML header; the id bytes `42 87` (DocTypeVersion) do
occur. -/
theorem c3_counterexample :
    mkvStart mediaboxNameBytes [] = some mkvStartEmptyBytes ∧
    ¬ ([0x42, 0x85] <:+: mkvStartEmptyBytes) ∧
    ([0x42, 0x87] <:+: mkvStartEmptyBytes) := by
  decide

/-- C3 amended: whenever `MatroskaMuxer::start` succeeds, its output starts
with the EBML header master containing exactly
EBMLVersion=1, EBMLReadVersion=1, EBMLMaxIDLength=4, EBMLMaxSizeLength=8,
DocType="matroska" and DocTypeVersion=1 (no DocTypeReadVersion), followed by
the Segment id and a single `0xFF` byte — `EbmlLength::Unknown(8)` is
written as the one-byte unknown-length marker, not as an 8-byte VINT. -/
theorem c3_amended (name : List Nat) (movie : List Track) (bs : List Nat)
    (h : mkvStart name movie = some bs) :
    (∃ rest, bs = startPrefixBytes ++ rest) ∧
    ebmlMasterWrite EBML_HEADER startEbmlHeaderChildren =
      some (startPrefixBytes.take 36) ∧
    write_vid SEGMENT = some [0x18, 0x53, 0x80, 0x67] ∧
    EbmlLength.writeBytes (.unknown 8) = some [0xFF] := by
  refine ⟨?_, by decide, by decide, by decide⟩
  rw [mkvStart] at h
  simp only [bind, Option.bind_eq_some, Option.pure_def, Option.some_inj] at h
  obtain ⟨hdr, hhdr, seg, hseg, len, hlen, info, hinfo, tracks, htracks, heq⟩ := h
  have e1 : ebmlMasterWrite EBML_HEADER startEbmlHeaderChildren =
      some (startPrefixBytes.take 36) := by decide
  have e2 : write_vid SEGMENT = some [0x18, 0x53, 0x80, 0x67] := by decide
  have e3 : EbmlLength.writeBytes (.unknown 8) = some [0xFF] := by decide
  rw [e1] at hhdr
  rw [e2] at hseg
  rw [e3] at hlen
  have hh : startPrefixBytes.take 36 = hdr := Option.some_inj.mp hhdr
  have hs : [0x18, 0x53, 0x80, 0x67] = seg := Option.some_inj.mp hseg
  have hl : [0xFF] = len := Option.some_inj.mp hlen
  refine ⟨info ++ tracks, ?_⟩
  rw [← heq, ← hh, ← hs, ← hl]
  conv_rhs => rw [show startPrefixBytes =
    startPrefixBytes.take 36 ++ ([0x18, 0x53, 0x80, 0x67] ++ [0xFF]) from by decide]
  simp [List.append_assoc]

/-- Witness for C3 on the Movie with no tracks. -/
theorem c3_amended_witness :
    (∃ rest, mkvStartEmptyBytes = startPrefixBytes ++ rest) ∧
    ebmlMasterWrite EBML_HEADER startEbmlHeaderChildren =
      some (startPrefixBytes.take 36) ∧
    write_vid SEGMENT = some [0x18, 0x53, 0x80, 0x67] ∧
    EbmlLength.writeBytes (.unknown 8) = some [0xFF] :=
  c3_amended mediaboxNameBytes [] mkvStartEmptyBytes (by decide)

/-! ## Demuxer track conversion (claim C5) -/

/-- C5 counterexample: a TrackEntry declaring codec `V_MPEG4/ISO/AVC`
(track number 1, video type) converts to a track whose codec is `Unknown` —
`convert_track` never consults the codec-id string — and a TrackEntry whose
track type is unsupported (3) is dropped by `convert_tracks`, so the
demuxer does drop tracks. -/
theorem c5_counterexample :
    convert_track c5AvcTrack = some (1, MediaInfo.mk CodecId.unknown [] 0 0) ∧
    CodecId.unknown ≠ CodecId.h264 ∧
    convert_tracks (1, 1000) [c5OtherTrack] = [] := by
  decide

/-- C5 amended: `convert_tracks` emits exactly the tracks that carry a
TrackNumber and a TrackType in {1, 2, 17}; every emitted track has the
default `MediaInfo` — codec `Unknown` whatever the codec-id string says,
which is never read (the source checks `track.number` where it means the
codec id) — and tracks failing these checks are dropped with a warning. -/
theorem c5_amended (tb : Nat × Nat) (ts : List MkvTrack) :
    convert_tracks tb ts = ts.filterMap (fun t =>
      match t.number, t.ty with
      | some n, some ty =>
        if ty = 1 ∨ ty = 2 ∨ ty = 17 then
          some ⟨n % 2 ^ 32, MediaInfo.mk CodecId.unknown [] 0 0, tb⟩
        else none
      | _, _ => none) := by
  unfold convert_tracks
  congr 1
  funext t
  cases hn : t.number with
  | none => simp [convert_track, hn]
  | some n =>
    cases hty : t.ty with
    | none => simp [convert_track, hn, hty]
    | some ty =>
      by_cases h : ty = 1 ∨ ty = 2 ∨ ty = 17 <;>
        simp [convert_track, hn, hty, h]

/-! ## SimpleBlock to Packet (claim C7) -/

theorem ebml_vint_of_write {v : Nat} (hv : v < 2 ^ 56) {enc : List Nat}
    (henc : write_vint v = some enc) (rest : List Nat) :
    ebml_vint (enc ++ rest) = some (v, rest) := by
  obtain ⟨b, hreq, hb1, hb8, hlt, _⟩ := vint_bytes_required_bounds hv
  have hw := write_vint_eq hreq hb1 hb8 hlt
  rw [henc] at hw
  obtain ⟨c, rfl⟩ : ∃ c, b = c + 1 := ⟨b - 1, by omega⟩
  have henc2 : enc = beBytes (c + 1) (v + 2 ^ (7 * (c + 1))) := Option.some_inj.mp hw
  rw [henc2]
  exact ebml_vint_marker c (by omega) hlt rest

theorem and128_testBit (x : Nat) : decide (x &&& 128 ≠ 0) = x.testBit 7 := by
  have h : x &&& 128 = (x.testBit 7).toNat * 128 := by
    have h2 := Nat.and_two_pow x 7
    norm_num at h2
    exact h2
  cases ht : x.testBit 7 <;> simp [h, ht]

/-- C7: a SimpleBlock whose track number matches a track of the Movie turns
into a packet whose pts is `cluster_ts + block_ts` clamped to `u64` with 0
substituted outside the range, whose keyframe flag is bit 7 of the flags
byte, and whose buffer is exactly the block bytes after the track-number
VINT, the two timestamp bytes and the flags byte. -/
theorem c7_simple_block_packet
    (cts : Nat) (hcts : cts < 2 ^ 64)
    (tracks : List Track) (track : Track) (tn : Nat) (htn : tn < 2 ^ 56)
    (hfind : tracks.find? (fun t => t.id = tn % 2 ^ 32) = some track)
    (hi lo fl : Nat) (hbytes : hi < 256 ∧ lo < 256 ∧ fl < 256)
    (body : List Nat) (enc : List Nat) (henc : write_vint tn = some enc) :
    read_simple_block (enc ++ hi :: lo :: fl :: body) =
      some ⟨tn, toI16 (hi * 256 + lo), fl, body⟩ ∧
    convert_block_to_packet tracks cts ⟨tn, toI16 (hi * 256 + lo), fl, body⟩ =
      some { pts := if 0 ≤ (cts : Int) + toI16 (hi * 256 + lo) ∧
                      (cts : Int) + toI16 (hi * 256 + lo) < 2 ^ 64
                    then ((cts : Int) + toI16 (hi * 256 + lo)).toNat else 0,
             key := fl.testBit 7,
             track := track,
             buffer := body } := by
  constructor
  · unfold read_simple_block
    rw [ebml_vint_of_write htn henc]
    rfl
  · unfold convert_block_to_packet
    rw [hfind]
    simp only [Option.some_inj]
    unfold u64CheckedAddSigned
    have hgetD : ∀ (c : Prop) (inst : Decidable c) (x : Nat),
        (if c then some x else none).getD 0 = if c then x else 0 := by
      intro c inst x
      split <;> rfl
    rw [hgetD, and128_testBit]

/-- Witness for C7 at cluster time 100, track 1 and block timestamp 5. -/
theorem c7_simple_block_packet_witness :
    read_simple_block ([0x81] ++ 0 :: 5 :: 0x80 :: [222, 173]) =
      some ⟨1, toI16 (0 * 256 + 5), 0x80, [222, 173]⟩ ∧
    convert_block_to_packet [⟨1, MediaInfo.mk .unknown [] 0 0, (1, 1)⟩] 100
        ⟨1, toI16 (0 * 256 + 5), 0x80, [222, 173]⟩ =
      some { pts := if 0 ≤ (100 : Int) + toI16 (0 * 256 + 5) ∧
                      (100 : Int) + toI16 (0 * 256 + 5) < 2 ^ 64
                    then ((100 : Int) + toI16 (0 * 256 + 5)).toNat else 0,
             key := Nat.testBit 0x80 7,
             track := ⟨1, MediaInfo.mk .unknown [] 0 0, (1, 1)⟩,
             buffer := [222, 173] } :=
  c7_simple_block_packet 100 (by norm_num) [⟨1, MediaInfo.mk .unknown [] 0 0, (1, 1)⟩]
    ⟨1, MediaInfo.mk .unknown [] 0 0, (1, 1)⟩ 1 (by norm_num) (by decide)
    0 5 0x80 (by norm_num) [222, 173] [0x81] (by decide)

/-! ## Bitstream reframing round-trip (claim C6) -/

theorem frame_length_ge (N : Nat) (hN : 1 ≤ N) (nals : List (List Nat)) :
    nals.length ≤ (frameLengthPrefixed N nals).length := by
  induction nals with
  | nil => simp [frameLengthPrefixed]
  | cons nal rest ih =>
    have h : frameLengthPrefixed N (nal :: rest) =
        beBytes N (nal.length % 2 ^ (8 * N)) ++ (nal ++ frameLengthPrefixed N rest) := rfl
    rw [h]
    simp only [List.length_append, List.length_cons, beBytes_length]
    omega

/-- The parse loop of `parse_bitstream_length_field`, run over `done`
already-consumed bytes followed by the framed encoding of `nals`, returns
exactly `nals` — provided every NAL is nonempty and fits its prefix, and,
when `nals` is empty, at least `N + 1` bytes were already consumed (which is
how the loop is always re-entered). -/
theorem parseLengthLoop_frame (N : Nat) (hN : 1 ≤ N) :
    ∀ (nals : List (List Nat)) (fuel : Nat) (done : List Nat),
      nals.length < fuel →
      (∀ nal ∈ nals, nal ≠ [] ∧ nal.length < 2 ^ (8 * N)) →
      (N + 1 ≤ done.length ∨ nals ≠ []) →
      parseLengthLoop N (done ++ frameLengthPrefixed N nals) fuel done.length =
        some nals := by
  intro nals
  induction nals with
  | nil =>
    intro fuel done hfuel hn hcase
    obtain ⟨f, rfl⟩ : ∃ f, fuel = f + 1 := ⟨fuel - 1, by omega⟩
    have hdone : N + 1 ≤ done.length := by
      rcases hcase with h | h
      · exact h
      · exact absurd rfl h
    rw [show frameLengthPrefixed N ([] : List (List Nat)) = [] from rfl,
      List.append_nil, parseLengthLoop]
    rw [if_pos (show N ≤ done.length by omega)]
    rw [if_neg (show ¬ done.length < done.length - N by omega)]
  | cons nal rest ih =>
    intro fuel done hfuel hn _hcase
    obtain ⟨f, rfl⟩ : ∃ f, fuel = f + 1 := ⟨fuel - 1, by omega⟩
    obtain ⟨hne, hLlt⟩ := hn nal (List.mem_cons_self nal rest)
    have hL1 : 1 ≤ nal.length := by
      cases nal with
      | nil => exact absurd rfl hne
      | cons a t => simp
    have hmod : nal.length % 2 ^ (8 * N) = nal.length := Nat.mod_eq_of_lt hLlt
    have hsplit : frameLengthPrefixed N (nal :: rest) =
        beBytes N (nal.length % 2 ^ (8 * N)) ++ (nal ++ frameLengthPrefixed N rest) := by
      simp [frameLengthPrefixed]
    rw [hsplit, parseLengthLoop]
    have hlen : (done ++ (beBytes N (nal.length % 2 ^ (8 * N)) ++
        (nal ++ frameLengthPrefixed N rest))).length =
        done.length + N + nal.length + (frameLengthPrefixed N rest).length := by
      simp [List.length_append, beBytes_length]
      omega
    rw [if_pos (show N ≤ (done ++ (beBytes N (nal.length % 2 ^ (8 * N)) ++
        (nal ++ frameLengthPrefixed N rest))).length by rw [hlen]; omega)]
    rw [if_pos (show done.length < (done ++ (beBytes N (nal.length % 2 ^ (8 * N)) ++
        (nal ++ frameLengthPrefixed N rest))).length - N by rw [hlen]; omega)]
    have hdrop : (done ++ (beBytes N (nal.length % 2 ^ (8 * N)) ++
        (nal ++ frameLengthPrefixed N rest))).drop done.length =
        beBytes N (nal.length % 2 ^ (8 * N)) ++ (nal ++ frameLengthPrefixed N rest) :=
      List.drop_left done _
    rw [hdrop]
    have htake : (beBytes N (nal.length % 2 ^ (8 * N)) ++
        (nal ++ frameLengthPrefixed N rest)).take N =
        beBytes N (nal.length % 2 ^ (8 * N)) := by
      have h := List.take_left (beBytes N (nal.length % 2 ^ (8 * N)))
        (nal ++ frameLengthPrefixed N rest)
      rwa [beBytes_length] at h
    rw [htake, if_pos (beBytes_length N _)]
    have hfold : beFold 0 (beBytes N (nal.length % 2 ^ (8 * N))) = nal.length := by
      rw [beFold_beBytes, Nat.zero_mul, Nat.zero_add,
        Nat.mod_mod_of_dvd _ (dvd_refl _), hmod]
    rw [hfold]
    have hdrop2 : (done ++ (beBytes N (nal.length % 2 ^ (8 * N)) ++
        (nal ++ frameLengthPrefixed N rest))).drop (done.length + N) =
        nal ++ frameLengthPrefixed N rest := by
      rw [show done ++ (beBytes N (nal.length % 2 ^ (8 * N)) ++
          (nal ++ frameLengthPrefixed N rest)) =
          (done ++ beBytes N (nal.length % 2 ^ (8 * N))) ++
          (nal ++ frameLengthPrefixed N rest) from by simp [List.append_assoc]]
      have h := List.drop_left (done ++ beBytes N (nal.length % 2 ^ (8 * N)))
        (nal ++ frameLengthPrefixed N rest)
      rwa [List.length_append, beBytes_length] at h
    rw [hdrop2]
    have htake2 : (nal ++ frameLengthPrefixed N rest).take nal.length = nal :=
      List.take_left nal _
    rw [htake2]
    have hrec : parseLengthLoop N (done ++ (beBytes N (nal.length % 2 ^ (8 * N)) ++
        (nal ++ frameLengthPrefixed N rest))) f (done.length + N + nal.length) =
        some rest := by
      have hre := ih f (done ++ beBytes N (nal.length % 2 ^ (8 * N)) ++ nal)
        (by simpa using Nat.lt_of_succ_lt_succ hfuel)
        (fun x hx => hn x (List.mem_cons_of_mem _ hx))
        (Or.inl (by simp [List.length_append, beBytes_length]; omega))
      rw [show (done ++ beBytes N (nal.length % 2 ^ (8 * N)) ++ nal) ++
          frameLengthPrefixed N rest =
          done ++ (beBytes N (nal.length % 2 ^ (8 * N)) ++
            (nal ++ frameLengthPrefixed N rest)) from by simp [List.append_assoc]] at hre
      rw [show (done ++ beBytes N (nal.length % 2 ^ (8 * N)) ++ nal).length =
          done.length + N + nal.length from by
            simp [List.length_append, beBytes_length]
            omega] at hre
      exact hre
    rw [hrec]
    rfl

/-- Parsing undoes framing for a length-prefixed framing, on nonempty NAL
lists of nonempty NALs that fit the prefix. -/
theorem parse_frame_round (N : Nat) (hN : 1 ≤ N) (nals : List (List Nat))
    (hne : nals ≠ [])
    (hn : ∀ nal ∈ nals, nal ≠ [] ∧ nal.length < 2 ^ (8 * N)) :
    parse_bitstream_length_field N (frameLengthPrefixed N nals) = some nals := by
  unfold parse_bitstream_length_field
  have h := parseLengthLoop_frame N hN nals
    ((frameLengthPrefixed N nals).length + 1) []
    (by have := frame_length_ge N hN nals; omega) hn (Or.inr hne)
  simpa using h

/-- C6 counterexample to the claim as stated: the one-element NAL list
holding the empty NAL frames (under `TwoByteLength`) to the two zero bytes,
which parse back to the empty list, not to the original list — the loop
bound `i < len - N` skips a trailing empty NAL (and on the empty NAL list
the parse panics outright per C10). -/
theorem c6_counterexample :
    frame_nal_units [[]] .twoByteLength = [0, 0] ∧
    parse_bitstream (frame_nal_units [[]] .twoByteLength) .twoByteLength =
      some [] ∧
    (some [] : Option (List (List Nat))) ≠ some [[]] := by
  decide

/-- C6 amended: for the two length-prefixed framings (Annex B parsing is
delegated to the external h264_reader crate and out of scope), for every
nonempty list of nonempty NAL units each fitting both length prefixes,
parsing undoes framing and `convert_bitstream` is byte-for-byte the target
framing of the NAL list. -/
theorem c6_round_trip (nals : List (List Nat)) (F1 F2 : BitstreamFraming)
    (h1 : F1 = .twoByteLength ∨ F1 = .fourByteLength)
    (h2 : F2 = .twoByteLength ∨ F2 = .fourByteLength)
    (hne : nals ≠ [])
    (hn : ∀ nal ∈ nals, nal ≠ [] ∧
      nal.length < 2 ^ (8 * framingWidth F1) ∧
      nal.length < 2 ^ (8 * framingWidth F2)) :
    parse_bitstream (frame_nal_units nals F2) F2 = some nals ∧
    convert_bitstream (frame_nal_units nals F1) F1 F2 =
      some (frame_nal_units nals F2) := by
  have hparse : ∀ F : BitstreamFraming,
      F = .twoByteLength ∨ F = .fourByteLength →
      (∀ nal ∈ nals, nal ≠ [] ∧ nal.length < 2 ^ (8 * framingWidth F)) →
      parse_bitstream (frame_nal_units nals F) F = some nals := by
    intro F hF hnF
    rcases hF with rfl | rfl
    · exact parse_frame_round 2 (by norm_num) nals hne hnF
    · exact parse_frame_round 4 (by norm_num) nals hne hnF
  constructor
  · exact hparse F2 h2 (fun nal h => ⟨(hn nal h).1, (hn nal h).2.2⟩)
  · by_cases heq : F1 = F2
    · subst heq
      unfold convert_bitstream
      rw [if_pos rfl]
    · unfold convert_bitstream
      rw [if_neg heq,
        hparse F1 h1 (fun nal h => ⟨(hn nal h).1, (hn nal h).2.1⟩)]
      rfl

/-- Witness for C6 with the NAL list `[[97], [98]]`, converting four-byte
length framing to two-byte length framing. -/
theorem c6_round_trip_witness :
    parse_bitstream (frame_nal_units [[97], [98]] .twoByteLength)
      .twoByteLength = some [[97], [98]] ∧
    convert_bitstream (frame_nal_units [[97], [98]] .fourByteLength)
      .fourByteLength .twoByteLength =
      some (frame_nal_units [[97], [98]] .twoByteLength) :=
  c6_round_trip [[97], [98]] .fourByteLength .twoByteLength
    (Or.inr rfl) (Or.inl rfl) (by decide) (by decide)

/-! ## Unknown EBML lengths (claim C1) -/

/-- C1, evaluated on the code: for every byte width, decoding the all-ones
VINT of that width yields `Known(2^(7w) - 1)`, never `Unknown(w)` — the
unknown test of `ebml_len` compares against `2^(7w)`, one above the largest
decodable payload; and `EbmlLength::Unknown(8)` writes the single byte
`0xFF` (not an 8-byte all-ones VINT) while declaring size 1. -/
theorem c1_code_eval :
    ebml_len (allOnesVint 1) = some (.known (2 ^ 7 - 1), []) ∧
    ebml_len (allOnesVint 2) = some (.known (2 ^ 14 - 1), []) ∧
    ebml_len (allOnesVint 3) = some (.known (2 ^ 21 - 1), []) ∧
    ebml_len (allOnesVint 4) = some (.known (2 ^ 28 - 1), []) ∧
    ebml_len (allOnesVint 5) = some (.known (2 ^ 35 - 1), []) ∧
    ebml_len (allOnesVint 6) = some (.known (2 ^ 42 - 1), []) ∧
    ebml_len (allOnesVint 7) = some (.known (2 ^ 49 - 1), []) ∧
    ebml_len (allOnesVint 8) = some (.known (2 ^ 56 - 1), []) ∧
    EbmlLength.writeBytes (.unknown 8) = some [0xFF] ∧
    EbmlLength.writeBytes (.unknown 8) ≠
      some [0x01, 0xFF, 0xFF, 0xFF, 0xFF, 0xFF, 0xFF, 0xFF] ∧
    EbmlLength.size (.unknown 8) = some 1 := by
  decide

/-! ## Integer element encoding (claim C4) -/

/-- C4, evaluated on the code: `write_uint_elem` emits the value bytes low
byte first (`256` becomes `00 01`, not big-endian `01 00`), zero emits no
byte at all while `EbmlValue::size` declares two for it, and `Int(1)`
declares size 0 while one byte is written. -/
theorem c4_code_eval :
    ebmlValueWrite (.uint 256) = some [0x00, 0x01] ∧
    ebmlValueWrite (.uint 256) ≠ some [0x01, 0x00] ∧
    ebmlValueWrite (.uint 0) = some [] ∧
    ebmlValueSize (.uint 0) = some 2 ∧
    ebmlValueWrite (.int 1) = some [1] ∧
    ebmlValueSize (.int 1) = some 0 ∧
    ebmlValueWrite (.int 0x1234) = some [0x34, 0x12] := by
  decide

/-! ## Length-prefixed parsing is partial (claim C10) -/

theorem parse_length_field_short {N : Nat} (hN : 0 < N) (hN64 : N < 2 ^ 64)
    (bs : List Nat) (h : bs.length < N) :
    parse_bitstream_length_field N bs = none := by
  rw [parse_bitstream_length_field, parseLengthLoop]
  rw [if_neg (by omega : ¬ N ≤ bs.length)]
  rw [if_pos (by omega : 0 < bs.length + (2 ^ 64 - N))]
  rw [if_neg]
  simp only [List.drop_zero, List.length_take]
  omega

/-- C10: for every input shorter than the length-prefix width, the loop
bound `len - N` wraps in usize arithmetic, the first length-slice read is
out of range, and `parse_bitstream` panics instead of returning a NAL list
(`none` in this embedding). -/
theorem c10_short_input_panics (bs : List Nat) :
    (bs.length < 2 → parse_bitstream bs .twoByteLength = none) ∧
    (bs.length < 4 → parse_bitstream bs .fourByteLength = none) := by
  constructor
  · intro h
    exact parse_length_field_short (by norm_num) (by norm_num) bs h
  · intro h
    exact parse_length_field_short (by norm_num) (by norm_num) bs h

/-- Witness for C10 on the empty span. -/
theorem c10_short_input_panics_witness :
    ([] : List Nat).length < 2 ∧ parse_bitstream [] .twoByteLength = none ∧
    ([] : List Nat).length < 4 ∧ parse_bitstream [] .fourByteLength = none :=
  ⟨by decide, (c10_short_input_panics []).1 (by decide), by decide,
    (c10_short_input_panics []).2 (by decide)⟩

/-! ## Buffered reader invariants (claim C8) -/

theorem rInv_reset {s : RState} (hs : rInv s) : rInv (resetBufferPosition s) := by
  rcases hs with ⟨h1, h2⟩
  unfold rInv resetBufferPosition at *
  simp only at *
  omega

theorem rInv_step {op : ROp} {s : RState} (hs : rInv s) (hv : rOpValid op s) :
    rInv (stepR op s) := by
  rcases hs with ⟨h1, h2⟩
  cases op with
  | consume amt =>
    unfold stepR consumeOp rInv at *
    simp only at *
    omega
  | ensureCapacity len =>
    unfold stepR ensureCapacityOp at *
    by_cases hc : len ≤ s.bufLen - s.pos
    · simpa [hc] using And.intro h1 h2
    · by_cases hl : len ≤ s.bufLen
      · simp only [hc, hl, if_false, if_true]
        exact rInv_reset ⟨h1, h2⟩
      · simp only [hc, hl, if_false]
        unfold rInv at *
        simp only at *
        omega
  | ensureAdditional more =>
    unfold stepR ensureAdditionalOp at *
    by_cases hc : s.e - s.pos + more ≤ s.bufLen - s.pos
    · simpa [ensureCapacityOp, hc] using And.intro h1 h2
    · by_cases hl : s.e - s.pos + more ≤ s.bufLen
      · simp only [ensureCapacityOp, hc, hl, if_false, if_true]
        exact rInv_reset ⟨h1, h2⟩
      · simp only [ensureCapacityOp, hc, hl, if_false]
        unfold rInv at *
        simp only at *
        omega
  | fill r =>
    unfold stepR fillBufOp at *
    unfold rOpValid at hv
    by_cases hb : s.pos ≠ 0 ∨ s.e ≠ s.bufLen
    · simp only [hb, if_true]
      by_cases hr : r = 0
      · simpa [hr] using rInv_reset ⟨h1, h2⟩
      · simp only [hr, if_false]
        unfold rInv resetBufferPosition at *
        simp only at *
        omega
    · simpa [hb] using And.intro h1 h2
  | seekCurrent delta q =>
    unfold stepR seekCurrentOp at *
    by_cases hb : (s.bufPos : Int) + s.pos + delta > (s.bufPos : Int) + s.e ∨
        (s.bufPos : Int) + s.pos + delta < (s.bufPos : Int)
    · simp only [hb, if_true]
      cases q with
      | some q => exact ⟨Nat.le_refl 0, Nat.zero_le _⟩
      | none => exact ⟨h1, h2⟩
    · simp only [hb, if_false]
      push_neg at hb
      unfold rInv
      simp only
      constructor
      · have : ((s.bufPos : Int) + s.pos + delta) - s.bufPos ≤ s.e := by omega
        omega
      · exact h2
  | seekAbsolute q =>
    unfold stepR seekAbsoluteOp at *
    cases q with
    | some q => exact ⟨Nat.le_refl 0, Nat.zero_le _⟩
    | none => exact ⟨h1, h2⟩

/-- C8 amended: the index invariant `0 ≤ pos ≤ end ≤ buf.len()` is preserved
by every valid sequence of consume, seek, ensure-capacity and fill
operations.  A `fill_buf` call that returns `Ok` either read `r > 0` bytes
after compacting — leaving `pos = 0` and `end = (old end - old pos) + r`, so
the available window `end - pos` strictly grows while `end` itself may
shrink — or found the buffer already full (`pos = 0`, `end = buf.len()`)
and returned without touching the state.  The claim as stated —
`Ok` always implies `end > previous end` — fails in both of those cases. -/
theorem c8_amended :
    (∀ (ops : List ROp) (s : RState), rInv s → rSeqValid ops s →
      rInv (runR ops s)) ∧
    (∀ (r : Nat) (s : RState), (fillBufOp r s).1 = true →
      (0 < r ∧ (fillBufOp r s).2.pos = 0 ∧
        (fillBufOp r s).2.e = s.e - s.pos + r) ∨
      (s.pos = 0 ∧ s.e = s.bufLen ∧ (fillBufOp r s).2 = s)) := by
  constructor
  · intro ops
    induction ops with
    | nil => intro s hs _; exact hs
    | cons op rest ih =>
      intro s hs hv
      exact ih (stepR op s) (rInv_step hs hv.1) hv.2
  · intro r s hok
    by_cases hb : s.pos ≠ 0 ∨ s.e ≠ s.bufLen
    · unfold fillBufOp at hok ⊢
      rw [if_pos hb] at hok ⊢
      by_cases hr : r = 0
      · rw [if_pos hr] at hok
        simp at hok
      · rw [if_neg hr] at hok ⊢
        left
        exact ⟨by omega, rfl, rfl⟩
    · unfold fillBufOp
      rw [if_neg hb]
      push_neg at hb
      exact Or.inr ⟨hb.1, hb.2, rfl⟩

/-- Witness for C8 applying the invariant to a concrete operation sequence
and the fill characterisation to a concrete fill. -/
theorem c8_amended_witness :
    rInv (runR [ROp.ensureCapacity 5, ROp.fill 5, ROp.consume 2,
      ROp.seekCurrent 1 none, ROp.fill 2] initRState) ∧
    ((0 < 2 ∧ (fillBufOp 2 ⟨0, 1, 3, 5, 0⟩).2.pos = 0 ∧
        (fillBufOp 2 ⟨0, 1, 3, 5, 0⟩).2.e = 3 - 1 + 2) ∨
      ((⟨0, 1, 3, 5, 0⟩ : RState).pos = 0 ∧ (⟨0, 1, 3, 5, 0⟩ : RState).e = 5 ∧
        (fillBufOp 2 ⟨0, 1, 3, 5, 0⟩).2 = ⟨0, 1, 3, 5, 0⟩)) :=
  ⟨c8_amended.1 _ initRState (by decide)
      (by unfold rSeqValid rOpValid
          exact ⟨trivial, by decide, trivial, trivial, by decide, trivial⟩),
    c8_amended.2 2 ⟨0, 1, 3, 5, 0⟩ (by decide)⟩

/-- C8 counterexample to the claim as stated: after filling a 3-byte buffer
and consuming 2 bytes, a `fill_buf` that reads one more byte returns `Ok`
with `end = 2`, strictly below the previous `end = 3` (compaction slid the
window); so an `Ok` fill does not imply `end > previous end`. -/
theorem c8_counterexample :
    (runR [ROp.ensureCapacity 3, ROp.fill 3, ROp.consume 2] initRState).e = 3 ∧
    (fillBufOp 1 (runR [ROp.ensureCapacity 3, ROp.fill 3, ROp.consume 2]
      initRState)).1 = true ∧
    (fillBufOp 1 (runR [ROp.ensureCapacity 3, ROp.fill 3, ROp.consume 2]
      initRState)).2.e = 2 ∧
    ¬ (runR [ROp.ensureCapacity 3, ROp.fill 3, ROp.consume 2] initRState).e <
      (fillBufOp 1 (runR [ROp.ensureCapacity 3, ROp.fill 3, ROp.consume 2]
        initRState)).2.e := by
  decide

/-! ## Probe scoring (claim C9) -/

theorem probePattern_length : ∀ p ∈ probePatterns, p.length = 8 := by decide

theorem probe_no_overlap_table :
    ∀ p ∈ probePatterns, ∀ q ∈ probePatterns,
      ∀ j ∈ [1, 2, 3, 4, 5, 6, 7], (p.drop j).isPrefixOf q = false := by
  decide

/-- No probe pattern can match strictly inside a match of another: the
patterns all have length eight and no proper suffix of one is a prefix of
another. -/
theorem probeHit_no_overlap (l : List Nat) (h : probeHit l = true) (j : Nat)
    (hj1 : 1 ≤ j) (hj8 : j < 8) : probeHit (l.drop j) = false := by
  rw [probeHit, List.any_eq_true] at h
  obtain ⟨p, hp, hpl⟩ := h
  rw [ List.isPrefixOf_iff_prefix] at hpl
  obtain ⟨t, rfl⟩ := hpl
  rw [probeHit]
  by_contra hq
  rw [Bool.not_eq_false, List.any_eq_true] at hq
  obtain ⟨q, hqmem, hql⟩ := hq
  rw [ List.isPrefixOf_iff_prefix] at hql
  have hplen : p.length = 8 := probePattern_length p hp
  have hqlen : q.length = 8 := probePattern_length q hqmem
  have hdrop : (p ++ t).drop j = p.drop j ++ t := by
    rw [List.drop_append_eq_append_drop,
      show j - p.length = 0 from by omega, List.drop_zero]
  rw [hdrop] at hql
  have hpre : p.drop j <+: p.drop j ++ t := List.prefix_append _ _
  have hle : (p.drop j).length ≤ q.length := by
    rw [List.length_drop, hplen, hqlen]; omega
  have hcontra : p.drop j <+: q := List.prefix_of_prefix_length_le hpre hql hle
  have htab := probe_no_overlap_table p hp q hqmem j
    (by interval_cases j <;> decide)
  rw [( List.isPrefixOf_iff_prefix).mpr hcontra] at htab
  exact absurd htab (by decide)

/-- Peeling one position off the occurrence count. -/
theorem occCount_eq_head_add_tail (l : List Nat) :
    occCount l = (if probeHit l then 1 else 0) + occCount (l.drop 1) := by
  cases l with
  | nil => decide
  | cons x rest =>
    show ((List.range (rest.length + 1)).filter
        fun i => probeHit ((x :: rest).drop i)).length = _
    rw [List.range_succ_eq_map, List.filter_cons]
    have hmap : ((List.range rest.length).map Nat.succ).filter
        (fun i => probeHit ((x :: rest).drop i)) =
        ((List.range rest.length).filter
          (fun i => probeHit (rest.drop i))).map Nat.succ := by
      rw [List.filter_map]
      rfl
    by_cases h : probeHit (x :: rest)
    · rw [if_pos (show probeHit ((x :: rest).drop 0) = true from h),
        if_pos h, hmap]
      simp [occCount]
      omega
    · rw [if_neg (show ¬ probeHit ((x :: rest).drop 0) = true from by
          simpa using h),
        if_neg (by simpa using h), hmap]
      simp [occCount]

/-- A hit at the front accounts for exactly one occurrence in the next
eight positions. -/
theorem occCount_hit (l : List Nat) (h : probeHit l = true) :
    occCount l = 1 + occCount (l.drop 8) := by
  have step : ∀ j, 1 ≤ j → j < 8 →
      occCount (l.drop j) = occCount (l.drop (j + 1)) := by
    intro j hj1 hj8
    have hstep := occCount_eq_head_add_tail (l.drop j)
    rw [if_neg (by simp [probeHit_no_overlap l h j hj1 hj8]),
      List.drop_drop] at hstep
    simpa using hstep
  rw [occCount_eq_head_add_tail l, if_pos h,
    step 1 (by omega) (by omega), step 2 (by omega) (by omega),
    step 3 (by omega) (by omega), step 4 (by omega) (by omega),
    step 5 (by omega) (by omega), step 6 (by omega) (by omega),
    step 7 (by omega) (by omega)]

/-- The fuelled scan loop, given enough fuel, computes the occurrence
count: matches never overlap, so skipping eight bytes after a hit skips no
occurrence. -/
theorem probeScanGo_eq_occCount :
    ∀ (n : Nat) (l : List Nat), l.length ≤ n →
      ∀ fuel, l.length ≤ fuel → probeScanGo fuel l = occCount l := by
  intro n
  induction n with
  | zero =>
    intro l hl fuel _
    have : l = [] := List.length_eq_zero.mp (Nat.le_zero.mp hl)
    subst this
    cases fuel <;> rfl
  | succ n ih =>
    intro l hl fuel hfuel
    cases l with
    | nil => cases fuel <;> rfl
    | cons x rest =>
      obtain ⟨f, rfl⟩ : ∃ f, fuel = f + 1 :=
        ⟨fuel - 1, by simp at hfuel; omega⟩
      show (if probeHit (x :: rest) then
          1 + probeScanGo f ((x :: rest).drop 8)
        else probeScanGo f rest) = _
      by_cases h : probeHit (x :: rest)
      · rw [if_pos h, occCount_hit (x :: rest) h]
        have h8 : 8 ≤ (x :: rest).length := by
          rw [probeHit, List.any_eq_true] at h
          obtain ⟨p, hp, hpl⟩ := h
          rw [ List.isPrefixOf_iff_prefix] at hpl
          obtain ⟨t, ht⟩ := hpl
          have := probePattern_length p hp
          rw [← ht, List.length_append, this]
          omega
        congr 1
        exact ih ((x :: rest).drop 8)
          (by rw [List.length_drop]; simp at hl ⊢; omega) f
          (by rw [List.length_drop]; simp at hfuel ⊢; omega)
      · rw [if_neg h, occCount_eq_head_add_tail (x :: rest), if_neg h]
        show probeScanGo f rest = 0 + occCount rest
        rw [Nat.zero_add]
        exact ih rest (by simp at hl; omega) f (by simp at hfuel; omega)

theorem probeScan_eq_occCount (data : List Nat) :
    probeScan data = occCount data :=
  probeScanGo_eq_occCount data.length data le_rfl data.length le_rfl

/-- C9 counterexample to the claim as stated: the probe patterns are the
eight `to_be_bytes()` bytes of the `u64`-valued ids — four leading zero
bytes included — so the bare four id bytes of the EBML header score
nothing; and a zero score returns `Maybe(0.0)`, never `Unsure`. -/
theorem c9_counterexample :
    mkvProbe [0x1A, 0x45, 0xDF, 0xA3] = .maybe 0 ∧
    occCount [0x1A, 0x45, 0xDF, 0xA3] = 0 ∧
    mkvProbe [] = .maybe 0 ∧
    mkvProbe [] ≠ .unsure := by
  decide

/-- C9 amended: the probe scores a quarter point per non-overlapping
occurrence of each of the four eight-byte patterns (the `u64` big-endian
bytes of the EBML header, Segment and Cluster ids — four leading zero
bytes included — and the string matroska); it returns `Yup` exactly when
at least four occurrences are found, otherwise `Maybe` carrying the exact
occurrence count in quarters — including `Maybe(0.0)` for no occurrence —
and it never returns `Unsure`. -/
theorem c9_amended (data : List Nat) :
    (mkvProbe data = .yup ↔ 4 ≤ occCount data) ∧
    (∀ k, mkvProbe data = .maybe k → k = occCount data ∧ occCount data < 4) ∧
    mkvProbe data ≠ .unsure := by
  have h := probeScan_eq_occCount data
  unfold mkvProbe
  rw [h]
  refine ⟨?_, ?_, ?_⟩
  · by_cases h4 : 4 ≤ occCount data
    · simp [h4]
    · simp [h4]
  · intro k hk
    by_cases h4 : 4 ≤ occCount data
    · rw [if_pos h4] at hk
      exact absurd hk (by simp)
    · rw [if_neg h4] at hk
      have : occCount data = k := by
        cases hk
        rfl
      omega
  · by_cases h4 : 4 ≤ occCount data <;> simp [h4]

/-- Witness for C9 on the window holding each pattern once, back to back:
four occurrences, so the probe says `Yup`. -/
theorem c9_amended_witness :
    mkvProbe probeWitnessData = ProbeResult.yup :=
  (c9_amended probeWitnessData).1.mpr (by decide)

end Mediabox
